import Mathlib

/-!
Verification of `config.py` from the print-notes-app repository
("Vantal Links Configuration Wizard").

The program is an interactive command-line editor for a JSON file
`config.json` holding a list of link records, plus a git add/commit/push
convenience command.  We give a shallow embedding:

* interactive `input()` calls become explicit `String` parameters;
* the in-place mutation of the `config` dict becomes functional state
  passing: each operation takes the configuration and returns the pair
  `(returned boolean, new configuration)`;
* the `subprocess` calls of `git_operations` become a record of boolean
  outcomes (one per external command);
* file-system outcomes of `load_config` become an explicit sum type.

Two levels of embedding are provided.  The main one works over a typed
configuration (`Config` / `Link`), which is the data shape the program
itself maintains.  A second, raw level (`JVal`, functions suffixed `J`)
works over arbitrary JSON values, models uncaught Python exceptions with
`Except`, and is used to prove that the operations preserve the
flat-list-of-records shape of the `links` value.
-/

/-- The string `"links"`, the key of the list in `config.json`. -/
def kLinks : String := "links"

/-- The string `"name"`, a record field key. -/
def kName : String := "name"

/-- The string `"url"`, a record field key. -/
def kUrl : String := "url"

/-- The string `"icon"`, a record field key. -/
def kIcon : String := "icon"

/-- The default icon class `"fas fa-link"` used by `add_new_link`
(line 75 of `config.py`). -/
def defaultIcon : String := "fas fa-link"

/-- Python `str.strip()` with no argument: drop leading and trailing
whitespace.  (CPython strips all Unicode whitespace; the difference with
`Char.isWhitespace` never matters below.) -/
def pyStrip (s : String) : String :=
  String.mk (((s.data.dropWhile Char.isWhitespace).reverse.dropWhile
    Char.isWhitespace).reverse)

/-- The numeric value of a digit string (helper for `pyInt?`). -/
def digitsVal (cs : List Char) : Nat :=
  cs.foldl (fun n c => 10 * n + (c.toNat - 48)) 0

/-- Parse a non-empty all-digit character list, `none` otherwise. -/
def digits? (cs : List Char) : Option Nat :=
  if cs.isEmpty then none
  else if cs.all Char.isDigit then some (digitsVal cs) else none

/-- Python `int(s)` on a string: leading/trailing whitespace is ignored,
an optional single sign is allowed, and the rest must be a non-empty
digit string; otherwise `ValueError` (here `none`).  (Underscore digit
grouping and non-ASCII digits, which CPython also accepts, never matter
for the properties below and are not modelled.) -/
def pyInt? (s : String) : Option Int :=
  match (pyStrip s).data with
  | [] => none
  | c :: cs =>
    if c = '-' then (digits? cs).map (fun n => -(n : Int))
    else if c = '+' then (digits? cs).map (fun n => (n : Int))
    else (digits? (c :: cs)).map (fun n => (n : Int))

/-- Helper for `pySplitComma`: accumulates the current field (reversed). -/
def splitCommaAux : List Char → List Char → List (List Char)
  | [], acc => [acc.reverse]
  | c :: cs, acc =>
    if c = ',' then acc.reverse :: splitCommaAux cs []
    else splitCommaAux cs (c :: acc)

/-- Python `s.split(',')`: the fields between commas, so one field more
than there are commas; `"".split(',') == [""]`. -/
def pySplitComma (s : String) : List String :=
  (splitCommaAux s.data []).map String.mk

/-- A link record as created and edited by the wizard: fields `name`,
`url`, `icon`.  `icon` is optional because records loaded from
`config.json` may lack it (the code reads it with
`link.get('icon', 'fas fa-link')`). -/
structure Link where
  name : String
  url : String
  icon : Option String
deriving DecidableEq, Repr

/-- The configuration: the value of the `"links"` key of `config.json`,
a flat ordered list of records. -/
structure Config where
  links : List Link
deriving DecidableEq, Repr

/-- Replace the element at position `n` (0-based) by `f` applied to it;
out-of-range positions leave the list unchanged.  Used to write an edited
record back into the list (Python mutates the record in place through the
alias `link = config["links"][choice - 1]`). -/
def modifyIdx : List α → Nat → (α → α) → List α
  | [], _, _ => []
  | x :: xs, 0, f => f x :: xs
  | x :: xs, n + 1, f => x :: modifyIdx xs n f

/-- `add_new_link` (config.py lines 50-86).  Parameters are the three
raw `input()` strings (name, URL, icon).  Returns the Python return
value paired with the updated configuration. -/
def add_new_link (config : Config) (nameIn urlIn iconIn : String) :
    Bool × Config :=
  let name := pyStrip nameIn
  if name = "" then (false, config)
  else
    let url := pyStrip urlIn
    if url = "" then (false, config)
    else
      let icon0 := pyStrip iconIn
      let icon := if icon0 = "" then defaultIcon else icon0
      (true, { config with links := config.links ++ [⟨name, url, some icon⟩] })

/-- `remove_link` (config.py lines 88-107).  `choiceIn` is the raw
`input()` string; `int(...)` failing is the caught `ValueError`. -/
def remove_link (config : Config) (choiceIn : String) : Bool × Config :=
  if config.links.isEmpty then (false, config)
  else
    match pyInt? choiceIn with
    | none => (false, config)
    | some choice =>
      if 1 ≤ choice ∧ choice ≤ (config.links.length : Int) then
        (true, { config with links := config.links.eraseIdx (choice - 1).toNat })
      else (false, config)

/-- The record update performed by `edit_link` once a record is selected
(config.py lines 123-133): each field is overwritten exactly when the
corresponding stripped input is non-empty. -/
def editRecord (link : Link) (newNameIn newUrlIn newIconIn : String) : Link :=
  let l1 := if pyStrip newNameIn = "" then link else { link with name := pyStrip newNameIn }
  let l2 := if pyStrip newUrlIn = "" then l1 else { l1 with url := pyStrip newUrlIn }
  if pyStrip newIconIn = "" then l2 else { l2 with icon := some (pyStrip newIconIn) }

/-- `edit_link` (config.py lines 109-142).  `choiceIn` is the raw
selection string, the other three parameters the raw field inputs. -/
def edit_link (config : Config) (choiceIn newNameIn newUrlIn newIconIn : String) :
    Bool × Config :=
  if config.links.isEmpty then (false, config)
  else
    match pyInt? choiceIn with
    | none => (false, config)
    | some choice =>
      if 1 ≤ choice ∧ choice ≤ (config.links.length : Int) then
        let newLinks := modifyIdx config.links (choice - 1).toNat
          (fun l => editRecord l newNameIn newUrlIn newIconIn)
        (true, { config with links := newLinks })
      else (false, config)

/-- The parse of the reorder input (config.py line 158):
`[int(i.strip()) - 1 for i in order_input.split(',')]`, with `none`
for the caught `ValueError`. -/
def parseOrderIndices (s : String) : Option (List Int) :=
  ((pySplitComma (pyStrip s)).mapM pyInt?).map (List.map (fun v => v - 1))

/-- The validation of `reorder_links` (config.py line 161):
`set(order_indices) == set(range(len(links)))`, i.e. every entered
index lies in range and every position in range is entered (at least
once — multiplicity is NOT checked by the code). -/
def validOrder (indices : List Int) (n : Nat) : Bool :=
  (indices.all fun x => decide (0 ≤ x) && decide (x < (n : Int))) &&
    ((List.range n).all fun i => indices.contains (i : Int))

/-- `reorder_links` (config.py lines 144-171).  `orderIn` is the raw
comma-separated input.  After a validation that passes, every index is
in range, so the list comprehension `[links[i] for i in order_indices]`
cannot raise; `getD` with an arbitrary default is therefore exact. -/
def reorder_links (config : Config) (orderIn : String) : Bool × Config :=
  if config.links.isEmpty then (false, config)
  else
    match parseOrderIndices orderIn with
    | none => (false, config)
    | some indices =>
      if validOrder indices config.links.length then
        let newLinks := indices.map (fun i => config.links.getD i.toNat ⟨"", "", none⟩)
        (true, { config with links := newLinks })
      else (false, config)

/-- Outcome of reading `config.json` (the `try` of `load_config`). -/
inductive FileRead where
  | missing : FileRead
  | invalidJson : FileRead
  | content : Config → FileRead

/-- Result of `load_config`: either a configuration or a `sys.exit`. -/
inductive LoadResult where
  | ok : Config → LoadResult
  | exited : Nat → LoadResult
deriving DecidableEq

/-- `load_config` (config.py lines 16-27): parsed contents when the file
holds valid JSON, the empty configuration when the file is missing,
`sys.exit(1)` when the JSON is invalid. -/
def load_config : FileRead → LoadResult
  | .content c => .ok c
  | .missing => .ok ⟨[]⟩
  | .invalidJson => .exited 1

/-- The external git commands run by `git_operations`, in source order
(config.py lines 181, 194, 198, 202). -/
inductive GitStep where
  | status : GitStep
  | add : GitStep
  | commit : GitStep
  | push : GitStep
deriving DecidableEq, Repr

/-- Outcomes of the four `subprocess.run(..., check=True)` calls.
`statusOk = false` covers both `CalledProcessError` (not a repository)
and `FileNotFoundError` (git not installed); for the other three a
`false` is the `CalledProcessError` caught at line 206. -/
structure GitEnv where
  statusOk : Bool
  addOk : Bool
  commitOk : Bool
  pushOk : Bool
deriving DecidableEq, Repr

/-- `git_operations` (config.py lines 173-208), instrumented with the
list of git commands actually run, in the order the code runs them.
A failing command is still in the trace (it was attempted); everything
after it is aborted by the raised exception. -/
def git_operations (env : GitEnv) : Bool × List GitStep :=
  if env.statusOk = false then (false, [GitStep.status])
  else if env.addOk = false then (false, [GitStep.status, GitStep.add])
  else if env.commitOk = false then
    (false, [GitStep.status, GitStep.add, GitStep.commit])
  else if env.pushOk = false then
    (false, [GitStep.status, GitStep.add, GitStep.commit, GitStep.push])
  else (true, [GitStep.status, GitStep.add, GitStep.commit, GitStep.push])

/-- The raw `input()` strings a single main-menu iteration may consume,
one per prompt of the four mutating operations. -/
structure MenuInputs where
  addName : String
  addUrl : String
  addIcon : String
  editChoice : String
  editName : String
  editUrl : String
  editIcon : String
  removeChoice : String
  orderIn : String
deriving Repr

/-- A single iteration of the `main_menu` loop (config.py lines 230-257):
given the stripped menu choice and the pending inputs, returns the new
configuration paired with whether `save_config` was called during the
iteration. -/
def main_menu_step (config : Config) (choice : String) (ins : MenuInputs) :
    Config × Bool :=
  let c := pyStrip choice
  if c = "1" then (config, false)
  else if c = "2" then
    let r := add_new_link config ins.addName ins.addUrl ins.addIcon
    (r.2, r.1)
  else if c = "3" then
    let r := edit_link config ins.editChoice ins.editName ins.editUrl ins.editIcon
    (r.2, r.1)
  else if c = "4" then
    let r := remove_link config ins.removeChoice
    (r.2, r.1)
  else if c = "5" then
    let r := reorder_links config ins.orderIn
    (r.2, r.1)
  else if c = "6" then (config, true)
  else if c = "7" then (config, true)
  else (config, false)

/-- A JSON value, as `json.load` may return it.  Numbers are collapsed
to `Int` (their exact arithmetic is never used). -/
inductive JVal where
  | jnull : JVal
  | jbool : Bool → JVal
  | jnum : Int → JVal
  | jstr : String → JVal
  | jarr : List JVal → JVal
  | jobj : List (String × JVal) → JVal

/-- Python dict lookup on the field list of an object (keys of a parsed
JSON object are distinct, so first match is the match). -/
def objGet : List (String × JVal) → String → Option JVal
  | [], _ => none
  | (k, v) :: rest, key => if k = key then (some v) else objGet rest key

/-- Python dict assignment `d[key] = v`: an existing key keeps its
position in insertion order; a new key is appended at the end. -/
def objSet : List (String × JVal) → String → JVal → List (String × JVal)
  | [], key, v => [(key, v)]
  | (k, w) :: rest, key, v =>
    if k = key then (k, v) :: rest else (k, w) :: objSet rest key v

/-- Python truthiness of a JSON value (`if not config.get("links")`):
`None`, `False`, `0`, `""`, `[]` and `{}` are falsy. -/
def pyTruthy : JVal → Bool
  | .jnull => false
  | .jbool b => b
  | .jnum n => !(n == 0)
  | .jstr s => !s.isEmpty
  | .jarr xs => !xs.isEmpty
  | .jobj fs => !fs.isEmpty

/-- `display_current_links` reads `link['name']` and `link['url']` of
every element; an element that is not an object with both keys makes it
raise an uncaught exception.  (Printing itself accepts any value.) -/
def displayable : JVal → Bool
  | .jobj fs => (objGet fs kName).isSome && (objGet fs kUrl).isSome
  | _ => false

/-- `add_new_link` over a raw JSON configuration.  `Except.error ()`
models an uncaught Python exception: subscripting a non-dict
configuration (`TypeError`), a missing `"links"` key (`KeyError`), or
`.append` on a non-list (`AttributeError`) — line 84 runs
`config["links"].append(new_link)` with no guard. -/
def addNewLinkJ (config : JVal) (nameIn urlIn iconIn : String) :
    Except Unit (Bool × JVal) :=
  let name := pyStrip nameIn
  if name = "" then .ok (false, config)
  else
    let url := pyStrip urlIn
    if url = "" then .ok (false, config)
    else
      let icon0 := pyStrip iconIn
      let icon := if icon0 = "" then defaultIcon else icon0
      let newLink := JVal.jobj [(kName, .jstr name), (kUrl, .jstr url), (kIcon, .jstr icon)]
      match config with
      | .jobj fs =>
        match objGet fs kLinks with
        | some (.jarr xs) => .ok (true, .jobj (objSet fs kLinks (.jarr (xs ++ [newLink]))))
        | some _ => .error ()
        | none => .error ()
      | _ => .error ()

/-- `remove_link` over a raw JSON configuration.  A falsy `links` value
returns `False`; a truthy one is iterated by `display_current_links`,
which raises unless it is a list of displayable records; then the
selection is parsed and the guarded `pop` runs. -/
def removeLinkJ (config : JVal) (choiceIn : String) : Except Unit (Bool × JVal) :=
  match config with
  | .jobj fs =>
    match objGet fs kLinks with
    | none => .ok (false, config)
    | some v =>
      if pyTruthy v = false then .ok (false, config)
      else
        match v with
        | .jarr xs =>
          if (xs.all displayable) = false then .error ()
          else
            match pyInt? choiceIn with
            | none => .ok (false, config)
            | some choice =>
              if 1 ≤ choice ∧ choice ≤ (xs.length : Int) then
                .ok (true, .jobj (objSet fs kLinks (.jarr (xs.eraseIdx (choice - 1).toNat))))
              else .ok (false, config)
        | _ => .error ()
  | _ => .error ()

/-- The in-place record mutation of `edit_link` (lines 123-133) on the
field list of the selected record. -/
def editRecordJ (lfs : List (String × JVal)) (newNameIn newUrlIn newIconIn : String) :
    List (String × JVal) :=
  let f1 := if pyStrip newNameIn = "" then lfs else objSet lfs kName (.jstr (pyStrip newNameIn))
  let f2 := if pyStrip newUrlIn = "" then f1 else objSet f1 kUrl (.jstr (pyStrip newUrlIn))
  if pyStrip newIconIn = "" then f2 else objSet f2 kIcon (.jstr (pyStrip newIconIn))

/-- `edit_link` over a raw JSON configuration.  The Python code mutates
the selected record through the alias `link`; here the edited record is
written back at its position. -/
def editLinkJ (config : JVal) (choiceIn newNameIn newUrlIn newIconIn : String) :
    Except Unit (Bool × JVal) :=
  match config with
  | .jobj fs =>
    match objGet fs kLinks with
    | none => .ok (false, config)
    | some v =>
      if pyTruthy v = false then .ok (false, config)
      else
        match v with
        | .jarr xs =>
          if (xs.all displayable) = false then .error ()
          else
            match pyInt? choiceIn with
            | none => .ok (false, config)
            | some choice =>
              if 1 ≤ choice ∧ choice ≤ (xs.length : Int) then
                match xs.getD (choice - 1).toNat JVal.jnull with
                | .jobj lfs =>
                  .ok (true, .jobj (objSet fs kLinks (.jarr
                    (xs.set (choice - 1).toNat
                      (.jobj (editRecordJ lfs newNameIn newUrlIn newIconIn))))))
                | _ => .error ()
              else .ok (false, config)
        | _ => .error ()
  | _ => .error ()

/-- `reorder_links` over a raw JSON configuration. -/
def reorderLinksJ (config : JVal) (orderIn : String) : Except Unit (Bool × JVal) :=
  match config with
  | .jobj fs =>
    match objGet fs kLinks with
    | none => .ok (false, config)
    | some v =>
      if pyTruthy v = false then .ok (false, config)
      else
        match v with
        | .jarr xs =>
          if (xs.all displayable) = false then .error ()
          else
            match parseOrderIndices orderIn with
            | none => .ok (false, config)
            | some indices =>
              if validOrder indices xs.length then
                .ok (true, .jobj (objSet fs kLinks (.jarr
                  (indices.map (fun i => xs.getD i.toNat JVal.jnull)))))
              else .ok (false, config)
        | _ => .error ()
  | _ => .error ()

/-- A value with no nested container: the record fields the wizard
itself writes are always strings, loaded ones may be any JSON scalar. -/
def isScalar : JVal → Bool
  | .jarr _ => false
  | .jobj _ => false
  | _ => true

/-- A flat record: an object all of whose field values are scalars. -/
def isFlatRecord : JVal → Bool
  | .jobj lfs => lfs.all (fun p => isScalar p.2)
  | _ => false

/-- The invariant of the configuration: it is an object whose `"links"`
value is a list of flat records. -/
def linksFlat (config : JVal) : Bool :=
  match config with
  | .jobj fs =>
    match objGet fs kLinks with
    | some (.jarr xs) => xs.all isFlatRecord
    | _ => false
  | _ => false

/-- The field-name sequence of a record, in insertion order. -/
def objKeys (lfs : List (String × JVal)) : List String :=
  lfs.map Prod.fst

/-- A sample link record (witness data). -/
def linkA : Link := ⟨"A", "https a", none⟩

/-- A second sample link record (witness data). -/
def linkB : Link := ⟨"B", "https b", none⟩

/-- A sample two-link configuration (witness data). -/
def cfgAB : Config := ⟨[linkA, linkB]⟩

/-- A reorder input with a duplicated index (witness data). -/
def dupOrderInput : String := "1,2,1"

/-- C3: `load_config` returns the parsed contents on valid JSON, the
empty configuration `{"links": []}` when the file is missing, and
terminates the program with exit code 1 on invalid JSON. -/
theorem load_config_spec :
    (∀ c : Config, load_config (FileRead.content c) = LoadResult.ok c) ∧
    load_config FileRead.missing = LoadResult.ok ⟨[]⟩ ∧
    load_config FileRead.invalidJson = LoadResult.exited 1 :=
  ⟨fun _ => rfl, rfl, rfl⟩

/-- C5: `git_operations` returns `True` exactly when the status check
and all three steps succeed; the executed command trace is always a
prefix of the fixed order status, add, commit, push; a failing step ends
the trace (nothing after it runs); and a failing status check returns
`False` with none of the three steps attempted. -/
theorem git_operations_spec (env : GitEnv) :
    ((git_operations env).1 = true ↔
      env.statusOk = true ∧ env.addOk = true ∧ env.commitOk = true ∧
        env.pushOk = true) ∧
    List.IsPrefix (git_operations env).2
      [GitStep.status, GitStep.add, GitStep.commit, GitStep.push] ∧
    (env.statusOk = false → git_operations env = (false, [GitStep.status])) ∧
    (env.statusOk = true → env.addOk = false →
      git_operations env = (false, [GitStep.status, GitStep.add])) ∧
    (env.statusOk = true → env.addOk = true → env.commitOk = false →
      git_operations env = (false, [GitStep.status, GitStep.add, GitStep.commit])) ∧
    (env.statusOk = true → env.addOk = true → env.commitOk = true →
      env.pushOk = false →
      git_operations env =
        (false, [GitStep.status, GitStep.add, GitStep.commit, GitStep.push])) ∧
    (env.statusOk = true → env.addOk = true → env.commitOk = true →
      env.pushOk = true →
      git_operations env =
        (true, [GitStep.status, GitStep.add, GitStep.commit, GitStep.push])) := by
  obtain ⟨s, a, c, p⟩ := env
  cases s <;> cases a <;> cases c <;> cases p <;>
    exact ⟨by decide, ⟨_, rfl⟩, by decide, by decide, by decide, by decide, by decide⟩

/-- Witness for C5 at a concrete environment: a failed status check
yields `False` with only the status command in the trace. -/
theorem git_operations_spec_witness :
    git_operations ⟨false, true, true, true⟩ = (false, [GitStep.status]) :=
  (git_operations_spec ⟨false, true, true, true⟩).2.2.1 rfl

/-- The menu choice strings of `main_menu` (config.py lines 232-248). -/
def mcView : String := "1"

/-- Menu choice 2 (add). -/
def mcAdd : String := "2"

/-- Menu choice 3 (edit). -/
def mcEdit : String := "3"

/-- Menu choice 4 (remove). -/
def mcRemove : String := "4"

/-- Menu choice 5 (reorder). -/
def mcReorder : String := "5"

/-- Menu choice 6 (save). -/
def mcSave : String := "6"

/-- Menu choice 7 (save and commit). -/
def mcSaveGit : String := "7"

/-- C4: in a main-menu iteration, each mutating choice (2 add, 3 edit,
4 remove, 5 reorder) calls `save_config` exactly when the operation
returns `True` (the saved flag equals the operation's return value and
the configuration is the operation's result); choices 6 and 7 always
save; choice 1 never saves. -/
theorem main_menu_step_spec (config : Config) (ins : MenuInputs) :
    main_menu_step config mcView ins = (config, false) ∧
    main_menu_step config mcAdd ins =
      ((add_new_link config ins.addName ins.addUrl ins.addIcon).2,
       (add_new_link config ins.addName ins.addUrl ins.addIcon).1) ∧
    main_menu_step config mcEdit ins =
      ((edit_link config ins.editChoice ins.editName ins.editUrl ins.editIcon).2,
       (edit_link config ins.editChoice ins.editName ins.editUrl ins.editIcon).1) ∧
    main_menu_step config mcRemove ins =
      ((remove_link config ins.removeChoice).2,
       (remove_link config ins.removeChoice).1) ∧
    main_menu_step config mcReorder ins =
      ((reorder_links config ins.orderIn).2,
       (reorder_links config ins.orderIn).1) ∧
    main_menu_step config mcSave ins = (config, true) ∧
    main_menu_step config mcSaveGit ins = (config, true) :=
  ⟨rfl, rfl, rfl, rfl, rfl, rfl, rfl⟩

/-- C1 counter-evidence: the reorder validation
`set(order_indices) == set(range(len(links)))` does not check
multiplicity.  On a two-link list the input `"1,2,1"` is accepted
(returns `True`) and yields a THREE-element list `[A, B, A]` — not a
permutation of the old list, and index 1 was entered twice. -/
theorem reorder_links_duplicate_accepted :
    reorder_links cfgAB dupOrderInput = (true, ⟨[linkA, linkB, linkA]⟩) ∧
    (reorder_links cfgAB dupOrderInput).2.links.length = 3 ∧
    cfgAB.links.length = 2 ∧
    parseOrderIndices dupOrderInput = some [0, 1, 0] := by
  refine ⟨?_, ?_, ?_, ?_⟩ <;> decide

/-- A name input with padding (witness data). -/
def nameInW : String := " N "

/-- A URL input (witness data). -/
def urlInW : String := "u"

/-- A whitespace-only icon input (witness data). -/
def iconInW : String := "  "

/-- C2: `add_new_link` validates nothing beyond emptiness of the
stripped name and URL: it returns `False` exactly when one of them
strips to empty, leaves the list unchanged in that case, and otherwise
appends exactly one record at the end and returns `True`, for arbitrary
string contents. -/
theorem add_new_link_spec (config : Config) (nameIn urlIn iconIn : String) :
    ((add_new_link config nameIn urlIn iconIn).1 = false ↔
      pyStrip nameIn = "" ∨ pyStrip urlIn = "") ∧
    ((add_new_link config nameIn urlIn iconIn).1 = false →
      (add_new_link config nameIn urlIn iconIn).2 = config) ∧
    (pyStrip nameIn ≠ "" → pyStrip urlIn ≠ "" →
      add_new_link config nameIn urlIn iconIn =
        (true, ⟨config.links ++ [⟨pyStrip nameIn, pyStrip urlIn,
          some (if pyStrip iconIn = "" then defaultIcon else pyStrip iconIn)⟩]⟩)) := by
  by_cases hn : pyStrip nameIn = "" <;> by_cases hu : pyStrip urlIn = "" <;>
    simp [add_new_link, hn, hu]

/-- Witness for C2: a padded name and URL are accepted and appended. -/
theorem add_new_link_spec_witness :
    add_new_link ⟨[]⟩ nameInW urlInW iconInW =
      (true, ⟨[⟨"N", "u", some defaultIcon⟩]⟩) := by
  have h := (add_new_link_spec ⟨[]⟩ nameInW urlInW iconInW).2.2
    (by decide) (by decide)
  exact h.trans (by decide)

/-- C9: with non-empty stripped name and URL, an empty stripped icon
input never makes the add fail: the add returns `True` and the appended
(last) record's icon is the default `"fas fa-link"`; a non-empty
stripped icon input is stored as entered. -/
theorem add_new_link_icon_default (config : Config) (nameIn urlIn iconIn : String)
    (hn : pyStrip nameIn ≠ "") (hu : pyStrip urlIn ≠ "") :
    (add_new_link config nameIn urlIn iconIn).1 = true ∧
    (add_new_link config nameIn urlIn iconIn).2.links.getLast? =
      some ⟨pyStrip nameIn, pyStrip urlIn,
        some (if pyStrip iconIn = "" then defaultIcon else pyStrip iconIn)⟩ := by
  simp [add_new_link, hn, hu, List.getLast?_concat]

/-- Witness for C9: blank icon input yields the default icon. -/
theorem add_new_link_icon_default_witness :
    (add_new_link cfgAB nameInW urlInW iconInW).1 = true ∧
    (add_new_link cfgAB nameInW urlInW iconInW).2.links.getLast? =
      some ⟨"N", "u", some defaultIcon⟩ := by
  have h := add_new_link_icon_default cfgAB nameInW urlInW iconInW
    (by decide) (by decide)
  exact ⟨h.1, h.2.trans (by decide)⟩

/-- A selection input with padding (witness data). -/
def removeOneInput : String := " 1 "

/-- An out-of-range selection input (witness data). -/
def removeNineInput : String := "9"

/-- C7: on a non-empty list, `remove_link` with a parsed selection `k`
in `1..n` returns `True` and removes exactly the `k`-th (1-based)
record, keeping the others in their original relative order (the result
is the records before it followed by the records after it); a parse
failure or an out-of-range selection returns `False` with the
configuration unchanged. -/
theorem remove_link_spec (config : Config) (choiceIn : String)
    (hne : config.links ≠ []) :
    (∀ k : Int, pyInt? choiceIn = some k → 1 ≤ k →
      k ≤ (config.links.length : Int) →
      remove_link config choiceIn =
        (true, ⟨config.links.take (k.toNat - 1) ++ config.links.drop k.toNat⟩)) ∧
    (pyInt? choiceIn = none → remove_link config choiceIn = (false, config)) ∧
    (∀ k : Int, pyInt? choiceIn = some k →
      (k < 1 ∨ (config.links.length : Int) < k) →
      remove_link config choiceIn = (false, config)) := by
  have hE : config.links.isEmpty = false := List.isEmpty_eq_false.mpr hne
  refine ⟨?_, ?_, ?_⟩
  · intro k hk h1 h2
    have hi : (k - 1).toNat = k.toNat - 1 := by omega
    have hi2 : k.toNat - 1 + 1 = k.toNat := by omega
    unfold remove_link
    rw [hE, hk]
    simp only [Bool.false_eq_true, if_false]
    rw [if_pos ⟨h1, h2⟩, List.eraseIdx_eq_take_drop_succ, hi, hi2]
  · intro hk
    unfold remove_link
    rw [hE, hk]
    simp
  · intro k hk hout
    have : ¬(1 ≤ k ∧ k ≤ (config.links.length : Int)) := by omega
    unfold remove_link
    rw [hE, hk]
    simp only [Bool.false_eq_true, if_false]
    rw [if_neg this]

/-- Witness for C7: removing entry `" 1 "` from the two-link sample. -/
theorem remove_link_spec_witness :
    remove_link cfgAB removeOneInput = (true, ⟨[linkB]⟩) ∧
    remove_link cfgAB removeNineInput = (false, cfgAB) := by
  constructor
  · have h := (remove_link_spec cfgAB removeOneInput (by decide)).1 1
      (by decide) (by decide) (by decide)
    exact h.trans (by decide)
  · exact (remove_link_spec cfgAB removeNineInput (by decide)).2.2 9
      (by decide) (by decide)

/-- `modifyIdx` preserves the length of the list. -/
theorem modifyIdx_length (l : List α) (n : Nat) (f : α → α) :
    (modifyIdx l n f).length = l.length := by
  induction l generalizing n with
  | nil => rfl
  | cons x xs ih =>
    cases n with
    | zero => rfl
    | succ m => simp [modifyIdx, ih]

/-- `modifyIdx` leaves every other position unchanged. -/
theorem getD_modifyIdx_ne (l : List α) (n j : Nat) (f : α → α) (d : α)
    (h : j ≠ n) : (modifyIdx l n f).getD j d = l.getD j d := by
  induction l generalizing n j with
  | nil => rfl
  | cons x xs ih =>
    cases n with
    | zero =>
      cases j with
      | zero => exact absurd rfl h
      | succ i => rfl
    | succ m =>
      cases j with
      | zero => rfl
      | succ i => exact ih m i (fun hc => h (by omega))

/-- `modifyIdx` applies the function at an in-range position. -/
theorem getD_modifyIdx_self (l : List α) (n : Nat) (f : α → α) (d : α)
    (h : n < l.length) : (modifyIdx l n f).getD n d = f (l.getD n d) := by
  induction l generalizing n with
  | nil => simp at h
  | cons x xs ih =>
    cases n with
    | zero => rfl
    | succ m => exact ih m (by simpa using h)

/-- The field-by-field effect of `editRecord`: a field is overwritten
exactly when the corresponding stripped input is non-empty. -/
theorem editRecord_eq (link : Link) (nn nu ni : String) :
    editRecord link nn nu ni =
      ⟨if pyStrip nn = "" then link.name else pyStrip nn,
       if pyStrip nu = "" then link.url else pyStrip nu,
       if pyStrip ni = "" then link.icon else some (pyStrip ni)⟩ := by
  unfold editRecord
  by_cases hn : pyStrip nn = "" <;> by_cases hu : pyStrip nu = "" <;>
    by_cases hi : pyStrip ni = "" <;> simp [hn, hu, hi]

/-- C8: after a valid selection `k`, `edit_link` returns `True`; the
list keeps its length; every record other than the selected one is
unchanged (so the order is unchanged); and in the selected record each
of the three fields is replaced exactly when the corresponding stripped
input is non-empty and kept otherwise. -/
theorem edit_link_spec (config : Config) (choiceIn nn nu ni : String)
    (k : Int) (hk : pyInt? choiceIn = some k) (h1 : 1 ≤ k)
    (h2 : k ≤ (config.links.length : Int)) :
    (edit_link config choiceIn nn nu ni).1 = true ∧
    (edit_link config choiceIn nn nu ni).2.links.length = config.links.length ∧
    (∀ d : Link, ∀ j : Nat, j ≠ k.toNat - 1 →
      (edit_link config choiceIn nn nu ni).2.links.getD j d =
        config.links.getD j d) ∧
    (∀ d : Link,
      (edit_link config choiceIn nn nu ni).2.links.getD (k.toNat - 1) d =
        ⟨if pyStrip nn = "" then (config.links.getD (k.toNat - 1) d).name
          else pyStrip nn,
         if pyStrip nu = "" then (config.links.getD (k.toNat - 1) d).url
          else pyStrip nu,
         if pyStrip ni = "" then (config.links.getD (k.toNat - 1) d).icon
          else some (pyStrip ni)⟩) := by
  have hlen : 1 ≤ config.links.length := by omega
  have hne : config.links ≠ [] := by
    intro h
    rw [h] at hlen
    simp at hlen
  have hE : config.links.isEmpty = false := List.isEmpty_eq_false.mpr hne
  have hi : (k - 1).toNat = k.toNat - 1 := by omega
  have hres : edit_link config choiceIn nn nu ni =
      (true, ⟨modifyIdx config.links (k.toNat - 1)
        (fun l => editRecord l nn nu ni)⟩) := by
    unfold edit_link
    rw [hE, hk]
    simp only [Bool.false_eq_true, if_false]
    rw [if_pos ⟨h1, h2⟩, hi]
  have hidx : k.toNat - 1 < config.links.length := by omega
  refine ⟨by rw [hres], ?_, ?_, ?_⟩
  · rw [hres]
    exact modifyIdx_length _ _ _
  · intro d j hj
    rw [hres]
    exact getD_modifyIdx_ne _ _ _ _ _ hj
  · intro d
    rw [hres]
    have := getD_modifyIdx_self config.links (k.toNat - 1)
      (fun l => editRecord l nn nu ni) d hidx
    rw [this]
    exact editRecord_eq _ _ _ _

/-- An edit selection input (witness data). -/
def editTwoInput : String := "2"

/-- A new-URL input (witness data). -/
def newUrlW : String := " nu "

/-- Witness for C8: editing record 2 of the sample with an empty name
input and a non-empty URL input replaces only the URL. -/
theorem edit_link_spec_witness :
    (edit_link cfgAB editTwoInput iconInW newUrlW iconInW).1 = true ∧
    (edit_link cfgAB editTwoInput iconInW newUrlW iconInW).2.links.getD 1 linkA =
      ⟨"B", "nu", none⟩ ∧
    (edit_link cfgAB editTwoInput iconInW newUrlW iconInW).2.links.getD 0 linkA =
      linkA := by
  have h := edit_link_spec cfgAB editTwoInput iconInW newUrlW iconInW 2
    (by decide) (by decide) (by decide)
  refine ⟨h.1, ?_, ?_⟩
  · exact (h.2.2.2 linkA).trans (by decide)
  · exact (h.2.2.1 linkA 0 (by decide)).trans (by decide)

/-- A non-numeric selection input (witness data). -/
def badIntInput : String := "x"

/-- An order input mentioning an out-of-range index (witness data). -/
def badOrderInput : String := "3,1"

/-- C10: `remove_link`, `edit_link` and `reorder_links` are atomic on
failure: whenever one of them returns `False` — empty list, parse
failure, out-of-range selection or invalid order — the configuration
after the call is exactly the configuration before it. -/
theorem ops_atomic_on_failure (config : Config) (rs es ts nn nu ni : String) :
    ((remove_link config rs).1 = false → (remove_link config rs).2 = config) ∧
    ((edit_link config es nn nu ni).1 = false →
      (edit_link config es nn nu ni).2 = config) ∧
    ((reorder_links config ts).1 = false →
      (reorder_links config ts).2 = config) := by
  refine ⟨?_, ?_, ?_⟩
  · unfold remove_link
    split
    · intro _; rfl
    · split
      · intro _; rfl
      · split
        · intro h; simp at h
        · intro _; rfl
  · unfold edit_link
    split
    · intro _; rfl
    · split
      · intro _; rfl
      · split
        · intro h; simp at h
        · intro _; rfl
  · unfold reorder_links
    split
    · intro _; rfl
    · split
      · intro _; rfl
      · split
        · intro h; simp at h
        · intro _; rfl

/-- Witness for C10: three concrete failing calls leave the sample
configuration untouched. -/
theorem ops_atomic_on_failure_witness :
    (remove_link cfgAB removeNineInput).2 = cfgAB ∧
    (edit_link cfgAB badIntInput nameInW urlInW iconInW).2 = cfgAB ∧
    (reorder_links cfgAB badOrderInput).2 = cfgAB := by
  have h := ops_atomic_on_failure cfgAB removeNineInput badIntInput
    badOrderInput nameInW urlInW iconInW
  exact ⟨h.1 (by decide), h.2.1 (by decide), h.2.2 (by decide)⟩

/-- The `"links"` value of a raw configuration, when it is a list. -/
def getLinksArr (config : JVal) : Option (List JVal) :=
  match config with
  | .jobj fs =>
    match objGet fs kLinks with
    | some (.jarr xs) => some xs
    | _ => none
  | _ => none

/-- Setting a key makes it readable. -/
theorem objGet_objSet_self (fs : List (String × JVal)) (k : String) (v : JVal) :
    objGet (objSet fs k v) k = some v := by
  induction fs with
  | nil => simp [objSet, objGet]
  | cons p rest ih =>
    obtain ⟨pk, pv⟩ := p
    by_cases h : pk = k <;> simp [objSet, objGet, h, ih]

/-- Setting a key leaves other keys unchanged. -/
theorem objGet_objSet_ne (fs : List (String × JVal)) (k q : String) (v : JVal)
    (h : k ≠ q) : objGet (objSet fs k v) q = objGet fs q := by
  induction fs with
  | nil => simp [objSet, objGet, h]
  | cons p rest ih =>
    obtain ⟨pk, pv⟩ := p
    by_cases hp : pk = k
    · subst hp
      simp [objSet, objGet, h]
    · simp [objSet, objGet, hp, ih]

/-- Setting a key to a scalar keeps all field values scalar. -/
theorem objSet_all_scalar (fs : List (String × JVal)) (k : String) (v : JVal)
    (hf : fs.all (fun p => isScalar p.2) = true) (hv : isScalar v = true) :
    (objSet fs k v).all (fun p => isScalar p.2) = true := by
  induction fs with
  | nil => simp [objSet, hv]
  | cons p rest ih =>
    obtain ⟨pk, pv⟩ := p
    simp only [List.all_cons, Bool.and_eq_true] at hf
    by_cases h : pk = k
    · simp [objSet, h, hv, hf.1, hf.2]
    · simp [objSet, h, hf.1, ih hf.2]

/-- Setting a present key keeps the field-name sequence. -/
theorem objKeys_objSet_of_mem (fs : List (String × JVal)) (k : String) (v : JVal)
    (h : (objGet fs k).isSome = true) :
    objKeys (objSet fs k v) = objKeys fs := by
  induction fs with
  | nil => simp [objGet] at h
  | cons p rest ih =>
    obtain ⟨pk, pv⟩ := p
    by_cases hp : pk = k
    · simp [objSet, objKeys, hp]
    · simp only [objGet, hp, if_false] at h
      simp [objSet, objKeys, hp] at ih ⊢
      exact ih h

/-- Setting an absent key appends it to the field-name sequence. -/
theorem objKeys_objSet_of_absent (fs : List (String × JVal)) (k : String)
    (v : JVal) (h : objGet fs k = none) :
    objKeys (objSet fs k v) = objKeys fs ++ [k] := by
  induction fs with
  | nil => simp [objSet, objKeys]
  | cons p rest ih =>
    obtain ⟨pk, pv⟩ := p
    by_cases hp : pk = k
    · simp [objGet, hp] at h
    · simp only [objGet, hp, if_false] at h
      simp [objSet, objKeys, hp] at ih ⊢
      exact ih h

/-- A configuration whose `"links"` value is a list is an object with
that list under the `"links"` key. -/
theorem getLinksArr_eq (config : JVal) (xs : List JVal)
    (h : getLinksArr config = some xs) :
    ∃ fs, config = JVal.jobj fs ∧ objGet fs kLinks = some (JVal.jarr xs) := by
  unfold getLinksArr at h
  split at h
  · rename_i fs
    refine ⟨fs, rfl, ?_⟩
    split at h
    · rename_i xs' heq
      injection h with h'
      rw [← h']
      exact heq
    · exact absurd h (by simp)
  · exact absurd h (by simp)

/-- Shape of every `ok` result of `addNewLinkJ` on a configuration
whose `"links"` value is a list. -/
theorem addNewLinkJ_ok (fs : List (String × JVal)) (xs : List JVal)
    (na ua ia : String) (b : Bool) (c : JVal)
    (hg : objGet fs kLinks = some (JVal.jarr xs))
    (h : addNewLinkJ (JVal.jobj fs) na ua ia = Except.ok (b, c)) :
    (b = false ∧ c = JVal.jobj fs) ∨
    (b = true ∧ c = JVal.jobj (objSet fs kLinks (JVal.jarr (xs ++ [JVal.jobj
      [(kName, JVal.jstr (pyStrip na)), (kUrl, JVal.jstr (pyStrip ua)),
       (kIcon, JVal.jstr
         (if pyStrip ia = "" then defaultIcon else pyStrip ia))]])))) := by
  unfold addNewLinkJ at h
  by_cases hn : pyStrip na = ""
  · simp only [hn, if_true, ite_true] at h
    injection h with h'
    left
    exact ⟨congrArg Prod.fst h' |>.symm, congrArg Prod.snd h' |>.symm⟩
  · by_cases hu : pyStrip ua = ""
    · simp only [hn, hu, if_true, if_false, ite_true, ite_false] at h
      injection h with h'
      left
      exact ⟨congrArg Prod.fst h' |>.symm, congrArg Prod.snd h' |>.symm⟩
    · simp only [hn, hu, if_false, ite_false, hg] at h
      injection h with h'
      right
      exact ⟨congrArg Prod.fst h' |>.symm, congrArg Prod.snd h' |>.symm⟩

/-- Shape of every `ok` result of `removeLinkJ` on a configuration
whose `"links"` value is a list. -/
theorem removeLinkJ_ok (fs : List (String × JVal)) (xs : List JVal)
    (cr : String) (b : Bool) (c : JVal)
    (hg : objGet fs kLinks = some (JVal.jarr xs))
    (h : removeLinkJ (JVal.jobj fs) cr = Except.ok (b, c)) :
    (b = false ∧ c = JVal.jobj fs) ∨
    (b = true ∧ ∃ i : Nat,
      c = JVal.jobj (objSet fs kLinks (JVal.jarr (xs.eraseIdx i)))) := by
  unfold removeLinkJ at h
  simp only [hg] at h
  by_cases ht : pyTruthy (JVal.jarr xs) = false
  · rw [if_pos ht] at h
    injection h with h'
    exact Or.inl ⟨congrArg Prod.fst h' |>.symm, congrArg Prod.snd h' |>.symm⟩
  · rw [if_neg ht] at h
    by_cases hd : (xs.all displayable) = false
    · rw [if_pos hd] at h
      exact absurd h (by simp)
    · rw [if_neg hd] at h
      split at h
      · injection h with h'
        exact Or.inl ⟨congrArg Prod.fst h' |>.symm, congrArg Prod.snd h' |>.symm⟩
      · rename_i k hk
        split at h
        · injection h with h'
          refine Or.inr ⟨congrArg Prod.fst h' |>.symm, (k - 1).toNat, ?_⟩
          exact (congrArg Prod.snd h').symm
        · injection h with h'
          exact Or.inl ⟨congrArg Prod.fst h' |>.symm, congrArg Prod.snd h' |>.symm⟩

/-- Shape of every `ok` result of `reorderLinksJ` on a configuration
whose `"links"` value is a list. -/
theorem reorderLinksJ_ok (fs : List (String × JVal)) (xs : List JVal)
    (os : String) (b : Bool) (c : JVal)
    (hg : objGet fs kLinks = some (JVal.jarr xs))
    (h : reorderLinksJ (JVal.jobj fs) os = Except.ok (b, c)) :
    (b = false ∧ c = JVal.jobj fs) ∨
    (b = true ∧ ∃ indices : List Int, validOrder indices xs.length = true ∧
      c = JVal.jobj (objSet fs kLinks (JVal.jarr
        (indices.map fun i => xs.getD i.toNat JVal.jnull)))) := by
  unfold reorderLinksJ at h
  simp only [hg] at h
  by_cases ht : pyTruthy (JVal.jarr xs) = false
  · rw [if_pos ht] at h
    injection h with h'
    exact Or.inl ⟨congrArg Prod.fst h' |>.symm, congrArg Prod.snd h' |>.symm⟩
  · rw [if_neg ht] at h
    by_cases hd : (xs.all displayable) = false
    · rw [if_pos hd] at h
      exact absurd h (by simp)
    · rw [if_neg hd] at h
      split at h
      · injection h with h'
        exact Or.inl ⟨congrArg Prod.fst h' |>.symm, congrArg Prod.snd h' |>.symm⟩
      · rename_i indices hp
        split at h
        · rename_i hv
          injection h with h'
          refine Or.inr ⟨congrArg Prod.fst h' |>.symm, indices, hv, ?_⟩
          exact (congrArg Prod.snd h').symm
        · injection h with h'
          exact Or.inl ⟨congrArg Prod.fst h' |>.symm, congrArg Prod.snd h' |>.symm⟩

/-- Shape of every `ok` result of `editLinkJ` on a configuration whose
`"links"` value is a list.  On success the selected element is a
displayable record and is replaced in place by its edited version. -/
theorem editLinkJ_ok (fs : List (String × JVal)) (xs : List JVal)
    (ce ne ue ie : String) (b : Bool) (c : JVal)
    (hg : objGet fs kLinks = some (JVal.jarr xs))
    (h : editLinkJ (JVal.jobj fs) ce ne ue ie = Except.ok (b, c)) :
    (b = false ∧ c = JVal.jobj fs) ∨
    (b = true ∧ ∃ (i : Nat) (lfs : List (String × JVal)),
      i < xs.length ∧ xs.getD i JVal.jnull = JVal.jobj lfs ∧
      xs.all displayable = true ∧
      c = JVal.jobj (objSet fs kLinks (JVal.jarr
        (xs.set i (JVal.jobj (editRecordJ lfs ne ue ie)))))) := by
  unfold editLinkJ at h
  simp only [hg] at h
  by_cases ht : pyTruthy (JVal.jarr xs) = false
  · rw [if_pos ht] at h
    injection h with h'
    exact Or.inl ⟨congrArg Prod.fst h' |>.symm, congrArg Prod.snd h' |>.symm⟩
  · rw [if_neg ht] at h
    by_cases hd : (xs.all displayable) = false
    · rw [if_pos hd] at h
      exact absurd h (by simp)
    · rw [if_neg hd] at h
      have hd' : xs.all displayable = true := by
        cases hb : xs.all displayable
        · exact absurd hb hd
        · rfl
      split at h
      · injection h with h'
        exact Or.inl ⟨congrArg Prod.fst h' |>.symm, congrArg Prod.snd h' |>.symm⟩
      · rename_i k hk
        split at h
        · rename_i hr
          split at h
          · rename_i lfs hlfs
            injection h with h'
            refine Or.inr ⟨congrArg Prod.fst h' |>.symm, (k - 1).toNat, lfs,
              ?_, hlfs, hd', (congrArg Prod.snd h').symm⟩
            omega
          · exact absurd h (by simp)
        · injection h with h'
          exact Or.inl ⟨congrArg Prod.fst h' |>.symm, congrArg Prod.snd h' |>.symm⟩

/-- `linksFlat` after overwriting the `"links"` key with a list. -/
theorem linksFlat_objSet (fs : List (String × JVal)) (ys : List JVal) :
    linksFlat (JVal.jobj (objSet fs kLinks (JVal.jarr ys))) =
      ys.all isFlatRecord := by
  simp [linksFlat, objGet_objSet_self]

/-- `getLinksArr` after overwriting the `"links"` key with a list. -/
theorem getLinksArr_objSet (fs : List (String × JVal)) (ys : List JVal) :
    getLinksArr (JVal.jobj (objSet fs kLinks (JVal.jarr ys))) = some ys := by
  simp [getLinksArr, objGet_objSet_self]

/-- Unfolding `linksFlat` on a known `"links"` list. -/
theorem linksFlat_elim (fs : List (String × JVal)) (xs : List JVal)
    (hg : objGet fs kLinks = some (JVal.jarr xs))
    (hflat : linksFlat (JVal.jobj fs) = true) :
    xs.all isFlatRecord = true := by
  unfold linksFlat at hflat
  simp only [hg] at hflat
  exact hflat

/-- `editRecordJ` writes only string values, so it keeps every field
value scalar. -/
theorem editRecordJ_all_scalar (lfs : List (String × JVal))
    (ne ue ie : String) (h : lfs.all (fun p => isScalar p.2) = true) :
    (editRecordJ lfs ne ue ie).all (fun p => isScalar p.2) = true := by
  unfold editRecordJ
  by_cases h1 : pyStrip ne = "" <;> by_cases h2 : pyStrip ue = "" <;>
    by_cases h3 : pyStrip ie = "" <;>
    simp only [h1, h2, h3, if_true, if_false, ite_true, ite_false] <;>
    first
      | exact h
      | exact objSet_all_scalar _ _ _ h rfl
      | exact objSet_all_scalar _ _ _ (objSet_all_scalar _ _ _ h rfl) rfl
      | exact objSet_all_scalar _ _ _
          (objSet_all_scalar _ _ _ (objSet_all_scalar _ _ _ h rfl) rfl) rfl

/-- The final `"icon"` step of `editRecordJ`: keys are kept, or
`"icon"` is appended when it was absent. -/
theorem iconStepKeys (lfs g : List (String × JVal)) (ie : String)
    (hkeys : objKeys g = objKeys lfs) :
    objKeys (if pyStrip ie = "" then g
      else objSet g kIcon (JVal.jstr (pyStrip ie))) = objKeys lfs ∨
    objKeys (if pyStrip ie = "" then g
      else objSet g kIcon (JVal.jstr (pyStrip ie))) = objKeys lfs ++ [kIcon] := by
  by_cases h3 : pyStrip ie = ""
  · rw [if_pos h3]
    exact Or.inl hkeys
  · rw [if_neg h3]
    cases hic : objGet g kIcon with
    | some w =>
      refine Or.inl ?_
      rw [objKeys_objSet_of_mem _ _ _ (by rw [hic]; rfl)]
      exact hkeys
    | none =>
      refine Or.inr ?_
      rw [objKeys_objSet_of_absent _ _ _ hic, hkeys]

/-- On a record that has `"name"` and `"url"` keys (as every displayed
record does), `editRecordJ` keeps the field-name sequence, except that
a previously absent `"icon"` key is appended at the end. -/
theorem editRecordJ_keys (lfs : List (String × JVal)) (ne ue ie : String)
    (hn : (objGet lfs kName).isSome = true)
    (hu : (objGet lfs kUrl).isSome = true) :
    objKeys (editRecordJ lfs ne ue ie) = objKeys lfs ∨
    objKeys (editRecordJ lfs ne ue ie) = objKeys lfs ++ [kIcon] := by
  unfold editRecordJ
  have hnu : kName ≠ kUrl := by decide
  by_cases h1 : pyStrip ne = "" <;> by_cases h2 : pyStrip ue = "" <;>
    simp only [h1, h2, if_true, if_false, ite_true, ite_false]
  · exact iconStepKeys lfs lfs ie rfl
  · exact iconStepKeys lfs _ ie (objKeys_objSet_of_mem _ _ _ hu)
  · exact iconStepKeys lfs _ ie (objKeys_objSet_of_mem _ _ _ hn)
  · refine iconStepKeys lfs _ ie ?_
    rw [objKeys_objSet_of_mem _ _ _
      (by rw [objGet_objSet_ne _ _ _ _ hnu]; exact hu)]
    exact objKeys_objSet_of_mem _ _ _ hn

/-- C6: every mutating operation keeps the configuration's `"links"`
value a flat ordered list of records.  Whenever a call returns (rather
than raising), the result still satisfies `linksFlat`; moreover on
success: `add_new_link` appends exactly the entered record with its
fields in entered order (name, url, icon); `remove_link` and
`reorder_links` only keep records of the old list unchanged; and
`edit_link` keeps old records or replaces the selected one by its
edited version, whose field-name sequence is the old one, except that a
previously absent `"icon"` is appended. -/
theorem mutating_ops_preserve_flat_links (config : JVal) (xs : List JVal)
    (na ua ia ce ne ue ie cr os : String)
    (hx : getLinksArr config = some xs) (hflat : linksFlat config = true) :
    (∀ b c, addNewLinkJ config na ua ia = Except.ok (b, c) →
      linksFlat c = true ∧ (b = true →
        getLinksArr c = some (xs ++ [JVal.jobj
          [(kName, JVal.jstr (pyStrip na)), (kUrl, JVal.jstr (pyStrip ua)),
           (kIcon, JVal.jstr
             (if pyStrip ia = "" then defaultIcon else pyStrip ia))]]))) ∧
    (∀ b c, removeLinkJ config cr = Except.ok (b, c) →
      linksFlat c = true ∧
        ∃ ys, getLinksArr c = some ys ∧ ∀ v ∈ ys, v ∈ xs) ∧
    (∀ b c, editLinkJ config ce ne ue ie = Except.ok (b, c) →
      linksFlat c = true ∧
        ∃ ys, getLinksArr c = some ys ∧ ∀ v ∈ ys,
          v ∈ xs ∨ ∃ lfs, JVal.jobj lfs ∈ xs ∧
            v = JVal.jobj (editRecordJ lfs ne ue ie) ∧
            (objKeys (editRecordJ lfs ne ue ie) = objKeys lfs ∨
             objKeys (editRecordJ lfs ne ue ie) = objKeys lfs ++ [kIcon])) ∧
    (∀ b c, reorderLinksJ config os = Except.ok (b, c) →
      linksFlat c = true ∧
        ∃ ys, getLinksArr c = some ys ∧ ∀ v ∈ ys, v ∈ xs) := by
  obtain ⟨fs, rfl, hg⟩ := getLinksArr_eq config xs hx
  have hxf : xs.all isFlatRecord = true := linksFlat_elim fs xs hg hflat
  have hxf' : ∀ v ∈ xs, isFlatRecord v = true := List.all_eq_true.mp hxf
  refine ⟨?_, ?_, ?_, ?_⟩
  · intro b c h
    rcases addNewLinkJ_ok fs xs na ua ia b c hg h with ⟨hb, rfl⟩ | ⟨hb, rfl⟩
    · exact ⟨hflat, fun hbt => absurd (hb ▸ hbt) (by simp)⟩
    · constructor
      · rw [linksFlat_objSet]
        simp [List.all_append, hxf, isFlatRecord, isScalar]
      · intro _
        rw [getLinksArr_objSet]
  · intro b c h
    rcases removeLinkJ_ok fs xs cr b c hg h with ⟨hb, rfl⟩ | ⟨hb, i, rfl⟩
    · exact ⟨hflat, xs, hx, fun v hv => hv⟩
    · refine ⟨?_, xs.eraseIdx i, getLinksArr_objSet _ _, ?_⟩
      · rw [linksFlat_objSet, List.all_eq_true]
        intro v hv
        exact hxf' v (List.Sublist.subset (List.eraseIdx_sublist xs i) hv)
      · intro v hv
        exact List.Sublist.subset (List.eraseIdx_sublist xs i) hv
  · intro b c h
    rcases editLinkJ_ok fs xs ce ne ue ie b c hg h with
      ⟨hb, rfl⟩ | ⟨hb, i, lfs, hi, hlfs, hdisp, rfl⟩
    · exact ⟨hflat, xs, hx, fun v hv => Or.inl hv⟩
    · have hmem : JVal.jobj lfs ∈ xs := by
        rw [List.getD_eq_getElem xs JVal.jnull hi] at hlfs
        rw [← hlfs]
        exact List.getElem_mem hi
      have hlfsflat : lfs.all (fun p => isScalar p.2) = true := by
        have hf := hxf' _ hmem
        simpa [isFlatRecord] using hf
      have hnu : (objGet lfs kName).isSome = true ∧
          (objGet lfs kUrl).isSome = true := by
        have hd := List.all_eq_true.mp hdisp _ hmem
        simpa [displayable] using hd
      have hkeys := editRecordJ_keys lfs ne ue ie hnu.1 hnu.2
      refine ⟨?_, _, getLinksArr_objSet _ _, ?_⟩
      · rw [linksFlat_objSet, List.all_eq_true]
        intro v hv
        rcases List.mem_or_eq_of_mem_set hv with hvx | rfl
        · exact hxf' v hvx
        · simpa [isFlatRecord] using editRecordJ_all_scalar lfs ne ue ie hlfsflat
      · intro v hv
        rcases List.mem_or_eq_of_mem_set hv with hvx | rfl
        · exact Or.inl hvx
        · exact Or.inr ⟨lfs, hmem, rfl, hkeys⟩
  · intro b c h
    rcases reorderLinksJ_ok fs xs os b c hg h with
      ⟨hb, rfl⟩ | ⟨hb, indices, hvo, rfl⟩
    · exact ⟨hflat, xs, hx, fun v hv => hv⟩
    · have hvo' := hvo
      unfold validOrder at hvo'
      rw [Bool.and_eq_true] at hvo'
      have hbound : ∀ j ∈ indices, j.toNat < xs.length := by
        intro j hj
        have hall := List.all_eq_true.mp hvo'.1 j hj
        simp only [Bool.and_eq_true, decide_eq_true_eq] at hall
        omega
      have hmm : ∀ v ∈ indices.map (fun i => xs.getD i.toNat JVal.jnull),
          v ∈ xs := by
        intro v hvm
        rcases List.mem_map.mp hvm with ⟨j, hj, rfl⟩
        rw [List.getD_eq_getElem xs JVal.jnull (hbound j hj)]
        exact List.getElem_mem (hbound j hj)
      refine ⟨?_, _, getLinksArr_objSet _ _, hmm⟩
      rw [linksFlat_objSet, List.all_eq_true]
      intro v hvm
      exact hxf' v (hmm v hvm)

/-- A raw JSON record (witness data). -/
def recJA : JVal := JVal.jobj [(kName, JVal.jstr "A"), (kUrl, JVal.jstr "a")]

/-- A raw JSON configuration with one link (witness data). -/
def jcfg1 : JVal := JVal.jobj [(kLinks, JVal.jarr [recJA])]

/-- The configuration after adding a link to `jcfg1` (witness data). -/
def jcfgAdded : JVal := JVal.jobj [(kLinks, JVal.jarr [recJA,
  JVal.jobj [(kName, JVal.jstr "N"), (kUrl, JVal.jstr "u"),
    (kIcon, JVal.jstr defaultIcon)]])]

/-- Witness for C6: a concrete add on a concrete flat configuration
succeeds and the result is still a flat list of records. -/
theorem mutating_ops_preserve_flat_links_witness :
    linksFlat jcfgAdded = true ∧
    addNewLinkJ jcfg1 nameInW urlInW iconInW = Except.ok (true, jcfgAdded) := by
  refine ⟨?_, ?_⟩
  · exact ((mutating_ops_preserve_flat_links jcfg1 [recJA] nameInW urlInW
      iconInW mcView nameInW urlInW iconInW mcView mcView rfl rfl).1
      true jcfgAdded (by rfl)).1
  · rfl
